import Mathlib

/-!
Verification of the clinic-bot tabular store, dialog flows, and
reconciliation loop.

The development shallowly embeds the Python sources (`excel_manager.py`,
`sheets_manager.py`, `bot.py`, `config.py`).  Spreadsheet tables become
`List ApptRow` / `List ReviewRow` (rows in sheet order, header dropped);
every cell is a `String`, matching the code's pervasive `str(...)`
normalisation.  Timestamps `'%Y-%m-%d %H:%M:%S'` are compared as strings,
exactly as pandas and Python compare them.  Functions named after the
source keep the source's behaviour on the non-exceptional path; the
fallback paths (COM retries) are optimisations the spec itself declares
non-normative and are not modelled.
-/

/-- Appointment row, columns of sheet `Записи на прием` in order:
date, time, patient name, phone, doctor, specialization, status,
user id, created-at. -/
structure ApptRow where
  date : String
  time : String
  patientName : String
  phone : String
  doctorName : String
  specialization : String
  status : String
  userId : String
  createdAt : String
deriving DecidableEq, Repr

/-- The data a caller passes to `add_appointment` (status and createdAt
are generated inside the call). -/
structure ApptInput where
  date : String
  time : String
  patientName : String
  phone : String
  doctorName : String
  specialization : String
  userId : String
deriving DecidableEq, Repr

/-- Row built by `add_appointment` on the append path: status `Новая`,
createdAt the current `'%Y-%m-%d %H:%M:%S'` timestamp (passed in as
`now`). -/
def mkApptRow (a : ApptInput) (now : String) : ApptRow :=
  ⟨a.date, a.time, a.patientName, a.phone, a.doctorName, a.specialization, "Новая", a.userId, now⟩

/-- Slot key `(userId, date, time, doctorName)` (glossary of the spec). -/
abbrev SlotKey := String × String × String × String

def slotKey (r : ApptRow) : SlotKey := (r.userId, r.date, r.time, r.doctorName)

def inputSlotKey (a : ApptInput) : SlotKey := (a.userId, a.date, a.time, a.doctorName)

/-- Dedup key used by `get_appointments_by_user` / `get_booked_times`
(`subset=['Дата записи', 'Время', 'Врач']` — note: no user id). -/
abbrev TripleKey := String × String × String

def tripleKey (r : ApptRow) : TripleKey := (r.date, r.time, r.doctorName)

/-- Identity key `(userId, date, time, doctorName, createdAt)` used by
`delete_appointment`. -/
structure IdentityKey where
  user : String
  date : String
  time : String
  doctorName : String
  createdAt : String
deriving DecidableEq, Repr

/-- The five-way equality test both backends' `delete_appointment` run on
each row (all operands already strings). -/
def matchesIdentity (k : IdentityKey) (r : ApptRow) : Prop :=
  r.userId = k.user ∧ r.date = k.date ∧ r.time = k.time ∧
    r.doctorName = k.doctorName ∧ r.createdAt = k.createdAt

instance (k : IdentityKey) : DecidablePred (matchesIdentity k) := fun r => by
  unfold matchesIdentity; infer_instance

/-- Python's `str.lower()` restricted to the alphabets the program's
status strings use: ASCII `A..Z` and Cyrillic `А..Я` map down by 32,
`Ё` maps to `ё`; everything else is unchanged. -/
def pyLowerChar (c : Char) : Char :=
  if ('A' ≤ c ∧ c ≤ 'Z') ∨ ('А' ≤ c ∧ c ≤ 'Я') then Char.ofNat (c.toNat + 32)
  else if c = 'Ё' then 'ё' else c

def pyLower (s : String) : String := String.mk (s.data.map pyLowerChar)

/-- Cancelled synonyms checked by `build_active_appointment_keys`. -/
def cancelledStatusesSync : List String :=
  ["отменена", "отменён", "cancelled", "canceled", "cancel"]

/-- Cancelled synonyms checked by `ExcelManager.get_booked_times`. -/
def cancelledStatusesBooked : List String :=
  ["отменена", "отменён", "cancelled", "canceled"]

/-- Cancelled synonyms checked by the `Мои записи` listing when deciding
whether to offer a cancel button. -/
def cancelledStatusesListing : List String := ["отменена", "cancelled"]

/-- Moderated-out synonyms checked by `build_active_review_keys`. -/
def removedReviewStatuses : List String :=
  ["удален", "удалён", "скрыт", "отклонен", "отклонён", "deleted", "hidden", "rejected"]

/-- Semantics of `pandas.DataFrame.drop_duplicates(subset, keep='last')`:
keep an element iff no later element has the same key; order of the kept
elements is preserved. -/
def dropDupKeepLast {α κ : Type} [DecidableEq κ] (f : α → κ) : List α → List α
  | [] => []
  | a :: as =>
    if ∃ b ∈ as, f b = f a then dropDupKeepLast f as
    else a :: dropDupKeepLast f as

/-- Ascending comparison on the `Дата создания` column, the sort key of
`sort_values('Дата создания')`; timestamp strings compare
lexicographically, which on `'%Y-%m-%d %H:%M:%S'` data is chronological
order. -/
def createdLe (a b : ApptRow) : Prop := a.createdAt ≤ b.createdAt

instance : DecidableRel createdLe := fun a b =>
  decidable_of_iff (a.createdAt.toList ≤ b.createdAt.toList) String.le_iff_toList_le.symm

instance : IsTotal ApptRow createdLe := ⟨fun a b => le_total a.createdAt b.createdAt⟩

instance : IsTrans ApptRow createdLe := ⟨fun _ _ _ h h' => le_trans h h'⟩

def sortByCreatedAt (l : List ApptRow) : List ApptRow := List.insertionSort createdLe l

/-- Descending comparison used by `get_appointments_by_user` in the
Sheets backend (`sort(key=..., reverse=True)`). -/
def createdGe (a b : ApptRow) : Prop := b.createdAt ≤ a.createdAt

instance : DecidableRel createdGe := fun a b =>
  decidable_of_iff (b.createdAt.toList ≤ a.createdAt.toList) String.le_iff_toList_le.symm

instance : IsTotal ApptRow createdGe := ⟨fun a b => le_total b.createdAt a.createdAt⟩

instance : IsTrans ApptRow createdGe := ⟨fun _ _ _ h h' => le_trans h' h⟩

def sortByCreatedAtDesc (l : List ApptRow) : List ApptRow := List.insertionSort createdGe l

namespace ExcelManager

/-- `ExcelManager.add_appointment` (pandas path): re-read the sheet, sort
by `Дата создания`, `drop_duplicates` on the slot key keeping the last,
append the new row with status `Новая` and `createdAt = now`, write the
sheet back.  Returns `True` on this path. -/
def add_appointment (t : List ApptRow) (a : ApptInput) (now : String) : List ApptRow :=
  dropDupKeepLast slotKey (sortByCreatedAt t) ++ [mkApptRow a now]

/-- `ExcelManager.get_appointments`: every data row, in sheet order. -/
def get_appointments (t : List ApptRow) : List ApptRow := t

/-- `ExcelManager.get_appointments_by_user`: filter on the user id, sort
by `Дата создания`, `drop_duplicates` on `(date, time, doctor)` keeping
the last. -/
def get_appointments_by_user (t : List ApptRow) (uid : String) : List ApptRow :=
  dropDupKeepLast tripleKey (sortByCreatedAt (t.filter (fun r => decide (r.userId = uid))))

/-- `ExcelManager.get_booked_times`: sort by `Дата создания`, dedup on
`(date, time, doctor)` keeping the last, then collect the times of rows
matching the doctor and the date whose lowered status is not a cancelled
synonym.  (On string-valued cells the code's `norm_date` is the
identity, so it is elided.) -/
def get_booked_times (t : List ApptRow) (doctorName date : String) : Finset String :=
  (((dropDupKeepLast tripleKey (sortByCreatedAt t)).filter
      (fun r => decide (r.doctorName = doctorName ∧ r.date = date ∧
        pyLower r.status ∉ cancelledStatusesBooked))).map
    (fun r => r.time)).toFinset

/-- `ExcelManager.delete_appointment`: drop every row whose five
normalized key fields equal the target; report `False` (table untouched)
when nothing matched. -/
def delete_appointment (t : List ApptRow) (k : IdentityKey) : Bool × List ApptRow :=
  if t.isEmpty then (false, t)
  else
    let kept := t.filter (fun r => decide (¬ matchesIdentity k r))
    if kept.length = t.length then (false, t) else (true, kept)

end ExcelManager

namespace GoogleSheetsManager

/-- `GoogleSheetsManager.add_appointment`: scan for an existing row with
the same `(user, date, time, doctor)`; if found, overwrite that row in
place with status `Обновлена` and a fresh `createdAt`, keeping its other
cells; otherwise append a new row with status `Новая`. -/
def add_appointment (a : ApptInput) (now : String) : List ApptRow → List ApptRow
  | [] => [mkApptRow a now]
  | r :: rs =>
    if slotKey r = inputSlotKey a then
      { r with status := "Обновлена", createdAt := now } :: rs
    else r :: add_appointment a now rs

/-- `GoogleSheetsManager.get_appointments`: every data row. -/
def get_appointments (t : List ApptRow) : List ApptRow := t

/-- `GoogleSheetsManager.get_appointments_by_user`: filter on the user
id and sort by `createdAt` descending (no dedup in this backend). -/
def get_appointments_by_user (t : List ApptRow) (uid : String) : List ApptRow :=
  sortByCreatedAtDesc (t.filter (fun r => decide (r.userId = uid)))

/-- `GoogleSheetsManager.delete_appointment`: delete the first row whose
five key fields all match; `False` (no change) when none matches. -/
def delete_appointment (k : IdentityKey) : List ApptRow → Bool × List ApptRow
  | [] => (false, [])
  | r :: rs =>
    if matchesIdentity k r then (true, rs)
    else
      let res := delete_appointment k rs
      (res.1, r :: res.2)

end GoogleSheetsManager

/-- Fold appending a batch of records through the Excel backend; each
pair is `(record, createdAt-at-call-time)`. -/
def addAllExcel (t : List ApptRow) (l : List (ApptInput × String)) : List ApptRow :=
  l.foldl (fun acc p => ExcelManager.add_appointment acc p.1 p.2) t

/-- Fold appending a batch of records through the Sheets backend. -/
def addAllSheets (t : List ApptRow) (l : List (ApptInput × String)) : List ApptRow :=
  l.foldl (fun acc p => GoogleSheetsManager.add_appointment p.1 p.2 acc) t

/-- `AVAILABLE_TIMES` from `config.py`. -/
def AVAILABLE_TIMES : List String :=
  ["09:00", "09:30", "10:00", "10:30", "11:00", "11:30",
   "12:00", "12:30", "13:00", "13:30", "14:00", "14:30",
   "15:00", "15:30", "16:00", "16:30", "17:00", "17:30",
   "18:00", "18:30", "19:00", "19:30"]

/-- The slot computation of `show_available_times`:
`[t for t in AVAILABLE_TIMES if t not in booked]`. -/
def show_available_times_slots (booked : Finset String) : List String :=
  AVAILABLE_TIMES.filter (fun t => decide (t ∉ booked))

/-- Review row, columns of sheet `Отзывы` in order: date, name, rating,
text, user id, status (rating as text, via `str(...)`). -/
structure ReviewRow where
  date : String
  name : String
  rating : String
  text : String
  userId : String
  status : String
deriving DecidableEq, Repr

/-- Active-appointment key built by `build_active_appointment_keys`:
`(userId, date, time, doctorName, createdAt)` as strings (the
normalisation helpers are the identity on string cells). -/
abbrev ApptKey := String × String × String × String × String

def apptKeyOfRow (r : ApptRow) : ApptKey := (r.userId, r.date, r.time, r.doctorName, r.createdAt)

/-- Active-review key built by `build_active_review_keys`:
`(userId, date, rating, text)`. -/
abbrev ReviewKey := String × String × String × String

def reviewKeyOfRow (r : ReviewRow) : ReviewKey := (r.userId, r.date, r.rating, r.text)

/-- `build_active_appointment_keys`: keys of the rows whose lowered
status is not a cancelled synonym.  (A Python `set`, hence a `Finset`.) -/
def build_active_appointment_keys (rows : List ApptRow) : Finset ApptKey :=
  ((rows.filter (fun r => decide (pyLower r.status ∉ cancelledStatusesSync))).map
    apptKeyOfRow).toFinset

/-- `build_active_review_keys`: keys of the rows whose lowered status is
not a deleted/hidden/rejected synonym. -/
def build_active_review_keys (rows : List ReviewRow) : Finset ReviewKey :=
  ((rows.filter (fun r => decide (pyLower r.status ∉ removedReviewStatuses))).map
    reviewKeyOfRow).toFinset

/-- What the reconciliation loop reads from the store at one tick. -/
abbrev StoreSnapshot := List ApptRow × List ReviewRow

/-- Baseline of the reconciliation loop
(`known_active_appointment_keys` / `known_active_review_keys`). -/
structure SyncState where
  appts : Finset ApptKey
  reviews : Finset ReviewKey
deriving DecidableEq

/-- Initial snapshot taken by `background_excel_sync` before its loop;
no notifications are emitted for it. -/
def initSyncState (s : StoreSnapshot) : SyncState :=
  ⟨build_active_appointment_keys s.1, build_active_review_keys s.2⟩

/-- One iteration of the `while True` body of `background_excel_sync`:
recompute both active-key sets, emit one notification per key of
`known − current`, then replace the baseline with `current`
unconditionally (notification failures are swallowed per key). -/
def syncTick (st : SyncState) (s : StoreSnapshot) :
    (Finset ApptKey × Finset ReviewKey) × SyncState :=
  let currentA := build_active_appointment_keys s.1
  let currentR := build_active_review_keys s.2
  ((st.appts \ currentA, st.reviews \ currentR), ⟨currentA, currentR⟩)

/-- Run the reconciliation loop over a sequence of store snapshots,
collecting the notification batch of every tick. -/
def runSync (st : SyncState) : List StoreSnapshot → List (Finset ApptKey × Finset ReviewKey)
  | [] => []
  | s :: rest => (syncTick st s).1 :: runSync (syncTick st s).2 rest

/-- Preview built for a removed review:
`(review_text[:120] + '…') if len(review_text) > 120 else review_text`
(Python slices strings by code point, hence `data.take`). -/
def reviewPreview (text : String) : String :=
  if text.length > 120 then String.mk (text.data.take 120) ++ "…" else text

/-- The message `background_excel_sync` sends for a removed review key. -/
def mkReviewRemovedMsg (date rating text : String) : String :=
  "Ваш отзыв от " ++ date ++ " (оценка " ++ rating ++
    ") был удалён/скрыт администратором.\nТекст: " ++ reviewPreview text

/-- Proleptic-Gregorian day number (era decomposition), the arithmetic
underlying Python `datetime` subtraction; only differences are used. -/
def daysFromCivil (y m d : Nat) : Int :=
  let y' := if m ≤ 2 then y - 1 else y
  let era := y' / 400
  let yoe := y' % 400
  let mp := (m + 9) % 12
  let doy := (153 * mp + 2) / 5 + d - 1
  let doe := yoe * 365 + yoe / 4 - yoe / 100 + doy
  (era * 146097 + doe : Int) - 719468

def isLeapYear (y : Nat) : Bool :=
  (y % 4 = 0 && y % 100 != 0) || y % 400 = 0

def daysInMonth (y m : Nat) : Nat :=
  if m = 2 then (if isLeapYear y then 29 else 28)
  else if m = 4 ∨ m = 6 ∨ m = 9 ∨ m = 11 then 30
  else 31

/-- Python `str.split(sep)` for a one-character separator, over the
code-point list. -/
def splitOnChar (c : Char) : List Char → List (List Char)
  | [] => [[]]
  | x :: xs =>
    match splitOnChar c xs with
    | [] => [[x]]
    | h :: t => if x = c then [] :: h :: t else (x :: h) :: t

/-- Python `int(...)` on the all-digit strings the bot produces. -/
def digitsToNat? (l : List Char) : Option Nat :=
  if l ≠ [] ∧ l.all (fun c => c.isDigit) then
    some (l.foldl (fun n c => n * 10 + (c.toNat - 48)) 0)
  else none

/-- `datetime.strptime(date, "%d.%m.%Y")` on the bot's date strings:
day and month of one or two digits, four-digit year, a real calendar
date; `none` models the `ValueError` the code catches. -/
def parseApptDate (s : String) : Option (Nat × Nat × Nat) :=
  match splitOnChar (Char.ofNat 46) s.data with
  | [d, m, y] =>
    match digitsToNat? d, digitsToNat? m, digitsToNat? y with
    | some dn, some mn, some yn =>
      if d.length ≤ 2 ∧ m.length ≤ 2 ∧ y.length = 4 ∧
          1 ≤ mn ∧ mn ≤ 12 ∧ 1 ≤ dn ∧ dn ≤ daysInMonth yn mn ∧ 1 ≤ yn then
        some (dn, mn, yn)
      else none
    | _, _, _ => none
  | _ => none

/-- `h, m = time.split(":")` followed by `replace(hour=int(h),
minute=int(m))`: exactly two fields, both numeric, hour < 24,
minute < 60; `none` models the exception path. -/
def parseApptTime (s : String) : Option (Nat × Nat) :=
  match splitOnChar (Char.ofNat 58) s.data with
  | [h, mi] =>
    match digitsToNat? h, digitsToNat? mi with
    | some hn, some mn => if hn < 24 ∧ mn < 60 then some (hn, mn) else none
    | _, _ => none
  | _ => none

/-- The appointment instant `appt_dt` as seconds on the proleptic
Gregorian timeline, `none` when parsing fails. -/
def apptInstantSeconds (date time : String) : Option Int := do
  let (d, m, y) ← parseApptDate date
  let (h, mi) ← parseApptTime time
  pure (daysFromCivil y m d * 86400 + (h * 3600 + mi * 60 : Nat))

/-- Outcome reported by `cancel_appointment_by_index` through
`callback_query.answer` alerts. -/
inductive CancelOutcome where
  /-- `Неверный номер записи` -/
  | invalidIndex
  /-- `Не удалось проверить время записи` (exception while parsing) -/
  | checkFailed
  /-- `Отменить запись можно только более чем за 24 часа до приёма` -/
  | rejectedEligibility
  /-- delete attempted; `true` = `Запись отменена`, `false` =
  `Ошибка при отмене записи` -/
  | done (ok : Bool)
deriving DecidableEq, Repr

/-- Identity key the cancel handler passes to `delete_appointment`:
the acting user's id plus the cached row's fields. -/
def cancelKey (uid : String) (r : ApptRow) : IdentityKey :=
  ⟨uid, r.date, r.time, r.doctorName, r.createdAt⟩

/-- `cancel_appointment_by_index`: resolve position `i` against the
cached snapshot `context.user_data['my_appts']`, reject an index outside
`1..len`, reject (or fail the check) unless the parsed instant is more
than 24 h away, then delete by identity key from the store (the deployed
store is the Excel backend). -/
def cancel_appointment_by_index (cache store : List ApptRow) (uid : String)
    (i : Int) (now : Int) : CancelOutcome × List ApptRow :=
  if i < 1 ∨ i > cache.length then (.invalidIndex, store)
  else
    match cache[i.toNat - 1]? with
    | none => (.invalidIndex, store)
    | some row =>
      match apptInstantSeconds row.date row.time with
      | none => (.checkFailed, store)
      | some inst =>
        if inst - now ≤ 86400 then (.rejectedEligibility, store)
        else
          let res := ExcelManager.delete_appointment store (cancelKey uid row)
          (.done res.1, res.2)

/-- A doctor entry of `config.DOCTORS`; only `name` is read by the
booking flow's terminal step. -/
structure DoctorInfo where
  name : String
  experience : String
  photo : String
  description : String
deriving DecidableEq, Repr

/-- Per-user booking session (`user_data[user_id]`): a dict whose keys
accumulate across the flow, so each field is optional. -/
structure Session where
  doctor : Option DoctorInfo
  specialization : Option String
  date : Option String
  time : Option String
  name : Option String
  phone : Option String
deriving DecidableEq, Repr

/-- The global `user_data` dict, keyed by user id. -/
abbrev SessionMap := List (String × Session)

def lookupSession (ss : SessionMap) (uid : String) : Option Session :=
  (ss.find? (fun p => p.1 == uid)).map (fun p => p.2)

/-- `user_data[user_id] = s` (overwrite or insert). -/
def updateSession (ss : SessionMap) (uid : String) (s : Session) : SessionMap :=
  (uid, s) :: ss.filter (fun p => decide (p.1 ≠ uid))

/-- `del user_data[user_id]`. -/
def removeSession (ss : SessionMap) (uid : String) : SessionMap :=
  ss.filter (fun p => decide (p.1 ≠ uid))

/-- Result of one dialog step as seen from the scheduler. -/
inductive StepOutcome where
  /-- the guarding `if` failed; nothing happened -/
  | noop
  /-- record handed to the store; `ok` is the store's verdict -/
  | completed (ok : Bool)
  /-- an uncaught exception (`KeyError`) escaped the handler -/
  | fault
deriving DecidableEq, Repr

/-- `enter_phone`, the booking flow's terminal step, parameterized over
the store (`add` stands for the selected backend's `add_appointment`).
If the user has no session the handler's body is skipped entirely.
Otherwise `phone` is recorded in the session dict first; then
`data['doctor']`, `data['specialization']`, `data['date']`,
`data['time']`, `data['name']` are read — a missing key raises
`KeyError`, leaving the mutated session behind.  When all are present
the record is appended and the session deleted whatever `ok` was. -/
def enter_phone {σ : Type} (add : σ → ApptInput → Bool × σ) (store : σ)
    (ss : SessionMap) (uid text : String) : StepOutcome × SessionMap × σ :=
  match lookupSession ss uid with
  | none => (.noop, ss, store)
  | some s =>
    let s1 : Session := { s with phone := some text }
    let ss1 := updateSession ss uid s1
    match s1.doctor, s1.specialization, s1.date, s1.time, s1.name with
    | some doc, some spec, some date, some time, some nm =>
      let res := add store ⟨date, time, nm, text, doc.name, spec, uid⟩
      (.completed res.1, removeSession ss1 uid, res.2)
    | _, _, _, _, _ => (.fault, ss1, store)

/-- `handle_review_text`, the review flow's terminal step.  The rating is
read with `.get('rating', 5)` (never faults), the review is appended, and
the `rating` key is deleted afterwards regardless of the outcome.  The
`Option Nat` models the user's `context.user_data.get('rating')` slot. -/
def handle_review_text {σ : Type} (addReview : σ → String → Nat → String → String → Bool × σ)
    (store : σ) (rating? : Option Nat) (userName text uid : String) :
    StepOutcome × Option Nat × σ :=
  let rating := rating?.getD 5
  let res := addReview store userName rating text uid
  (.completed res.1, none, res.2)

/-- The names bound at the top level of module `sheets_manager` once it
has executed (imports, the availability flag, scopes, logger, and the
class `GoogleSheetsManager`).  `from sheets_manager import X` succeeds
exactly when `X` is among them. -/
def sheetsManagerModuleNames : List String :=
  ["os", "json", "datetime", "timedelta", "List", "Tuple", "Optional", "Dict", "Any",
   "asyncio", "logging", "gspread", "Spreadsheet", "Worksheet", "SpreadsheetNotFound",
   "WorksheetNotFound", "Credentials", "DefaultCredentialsError", "GOOGLE_AVAILABLE",
   "logger", "GOOGLE_SCOPES", "GoogleSheetsManager"]

/-- `bot.py`'s guarded import: `from sheets_manager import SheetsManager`
inside `try/except`, binding `None` when the import raises. -/
def importedSheetsManagerOk : Bool :=
  sheetsManagerModuleNames.contains "SheetsManager"

inductive StoreBackend where
  | excel
  | sheets
deriving DecidableEq, Repr

/-- Python truthiness of `os.getenv('GOOGLE_SHEETS_ID')`: set and
non-empty. -/
def envTruthy : Option String → Bool
  | none => false
  | some s => !s.isEmpty

/-- Startup store selection in `bot.py`:
`SheetsManager() if SheetsManager is not None and os.getenv('GOOGLE_SHEETS_ID') else ExcelManager()`. -/
def selectStoreBackend (googleSheetsId : Option String) : StoreBackend :=
  if importedSheetsManagerOk && envTruthy googleSheetsId then .sheets else .excel

/-- Booked-times query as the spec words it (§4.1 with the glossary's
slot key): deduplicate by the full slot key `(userId, date, time,
doctorName)` keeping the latest `createdAt`, then collect the times of
the non-cancelled rows matching the doctor and the date.  Used only to
compare the implementation against the spec. -/
def specFindBookedTimes (t : List ApptRow) (doctorName date : String) : Finset String :=
  (((dropDupKeepLast slotKey (sortByCreatedAt t)).filter
      (fun r => decide (r.doctorName = doctorName ∧ r.date = date ∧
        pyLower r.status ∉ cancelledStatusesBooked))).map
    (fun r => r.time)).toFinset

/-- The in-place overwrite the Sheets backend performs on a slot-key
duplicate, iterated over a batch of appends (proof helper). -/
def foldUpdates (row : ApptRow) (l : List (ApptInput × String)) : ApptRow :=
  l.foldl (fun r p => { r with status := "Обновлена", createdAt := p.2 }) row

/-- Row left in the Sheets table after a first append of `a1` followed
by at least one same-slot re-append, the last at `cN`: the first
record's cells with status `Обновлена` and `createdAt = cN`. -/
def sheetsFinalRow (a1 : ApptInput) (cN : String) : ApptRow :=
  ⟨a1.date, a1.time, a1.patientName, a1.phone, a1.doctorName, a1.specialization,
    "Обновлена", a1.userId, cN⟩

/-- Row the Sheets backend ends up holding for the slot after the batch
`l₀ ++ [(aN, cN)]` hits an initially slot-free table. -/
def sheetsResultRow (l₀ : List (ApptInput × String)) (aN : ApptInput) (cN : String) : ApptRow :=
  match l₀ with
  | [] => mkApptRow aN cN
  | (a1, _) :: _ => sheetsFinalRow a1 cN

/-! Concrete records used by the closed witness and counterexample
theorems below. -/

/-- First booking attempt for slot `("7", 15.09.2025, 10:00, Dr)`. -/
def exInputA : ApptInput := ⟨"15.09.2025", "10:00", "Anna", "+1000", "Dr", "Кардиолог", "7"⟩

/-- Second booking attempt for the same slot, different patient cells. -/
def exInputB : ApptInput := ⟨"15.09.2025", "10:00", "Boris", "+2000", "Dr", "Кардиолог", "7"⟩

def exCreatedA : String := "2025-09-01 10:00:00"

def exCreatedB : String := "2025-09-01 10:00:05"

/-- A stored non-cancelled appointment of user `1`. -/
def exRowBookedByOther : ApptRow :=
  ⟨"15.09.2025", "10:00", "Anna", "+1000", "Dr", "Кардиолог", "Новая", "1", "2025-09-01 10:00:00"⟩

/-- A later, cancelled appointment of user `2` for the same
`(date, time, doctor)` triple. -/
def exRowCancelledLater : ApptRow :=
  ⟨"15.09.2025", "10:00", "Boris", "+2000", "Dr", "Кардиолог", "отменена", "2", "2025-09-02 10:00:00"⟩

/-- The cached row the cancel witnesses operate on (owned by user `7`). -/
def exCachedRow : ApptRow :=
  ⟨"15.09.2025", "10:00", "Anna", "+1000", "Dr", "Кардиолог", "Новая", "7", "2025-09-01 10:00:00"⟩

/-- `apptInstantSeconds "15.09.2025" "10:00"`, in seconds. -/
def exInstant : Int := 1757930400

/-- A current time 25 hours before `exInstant` (cancellable). -/
def exNowFar : Int := exInstant - 90000

/-- A current time 23 h 59 min before `exInstant` (not cancellable). -/
def exNowNear : Int := exInstant - 86340

/-- A complete booking session (all required keys present). -/
def exDoctor : DoctorInfo := ⟨"Dr", "15 лет", "x", "врач"⟩

def exCompleteSession : Session :=
  ⟨some exDoctor, some "Кардиолог", some "15.09.2025", some "10:00", some "Anna", none⟩

/-- A session that exists but lacks the `date` key (reachable by
clicking a stale time button after re-entering doctor selection). -/
def exIncompleteSession : Session :=
  ⟨some exDoctor, some "Кардиолог", none, some "10:00", some "Anna", none⟩

def exSessionsComplete : SessionMap := [("7", exCompleteSession)]

def exSessionsIncomplete : SessionMap := [("7", exIncompleteSession)]

/-- A stored review row of user `9`. -/
def exReviewRow : ReviewRow :=
  ⟨"2025-01-01 10:00:00", "Anna", "5", "Отлично", "9", "Новый"⟩

/-! Helper lemmas. -/

/-- Dedup only drops elements. -/
theorem mem_of_mem_dropDupKeepLast {α κ : Type} [DecidableEq κ] (f : α → κ) :
    ∀ {l : List α} {a : α}, a ∈ dropDupKeepLast f l → a ∈ l := by
  intro l
  induction l with
  | nil => intro a h; exact absurd h (List.not_mem_nil a)
  | cons x xs ih =>
    intro a h
    unfold dropDupKeepLast at h
    split at h
    · exact List.mem_cons_of_mem x (ih h)
    · rcases List.mem_cons.mp h with h1 | h2
      · exact h1 ▸ List.mem_cons_self x xs
      · exact List.mem_cons_of_mem x (ih h2)

theorem getLast?_cons_of_ne_nil {α : Type} (a : α) {t : List α} (ht : t ≠ []) :
    (a :: t).getLast? = t.getLast? := by
  cases t with
  | nil => exact absurd rfl ht
  | cons y ys => exact List.getLast?_cons_cons

/-- The rows a keep-last dedup retains for one key value: exactly the
last input element carrying that key (if any). -/
theorem dropDupKeepLast_filter_key {α κ : Type} [DecidableEq κ] (f : α → κ) (k : κ) :
    ∀ l : List α,
      (dropDupKeepLast f l).filter (fun b => decide (f b = k)) =
        ((l.filter (fun b => decide (f b = k))).getLast?).toList := by
  intro l
  induction l with
  | nil => rfl
  | cons x xs ih =>
    by_cases hdup : ∃ b ∈ xs, f b = f x
    · rw [show dropDupKeepLast f (x :: xs) = dropDupKeepLast f xs from by
        simp [dropDupKeepLast, hdup]]
      rw [ih]
      by_cases hx : f x = k
      · have hne : xs.filter (fun b => decide (f b = k)) ≠ [] := by
          rcases hdup with ⟨b, hb, hfb⟩
          intro hnil
          have hmem : b ∈ xs.filter (fun b => decide (f b = k)) :=
            List.mem_filter.mpr ⟨hb, by simp [hfb, hx]⟩
          rw [hnil] at hmem
          exact absurd hmem (List.not_mem_nil b)
        rw [List.filter_cons_of_pos (by simp [hx]), getLast?_cons_of_ne_nil _ hne]
      · rw [List.filter_cons_of_neg (by simp [hx])]
    · rw [show dropDupKeepLast f (x :: xs) = x :: dropDupKeepLast f xs from by
        simp [dropDupKeepLast, hdup]]
      by_cases hx : f x = k
      · have hnil : xs.filter (fun b => decide (f b = k)) = [] := by
          rw [List.filter_eq_nil_iff]
          intro b hb hfb
          rw [decide_eq_true_iff] at hfb
          exact hdup ⟨b, hb, by rw [hfb, hx]⟩
        have hnil2 : (dropDupKeepLast f xs).filter (fun b => decide (f b = k)) = [] := by
          rw [ih, hnil]; rfl
        rw [List.filter_cons_of_pos (by simp [hx]), hnil2,
          List.filter_cons_of_pos (by simp [hx]), hnil]
        rfl
      · rw [List.filter_cons_of_neg (by simp [hx]), List.filter_cons_of_neg (by simp [hx]), ih]

/-- In a list sorted by `createdAt` whose members are all `R` or
strictly older than `R`, with `R` present, the last element is `R`. -/
theorem getLast?_eq_of_sorted_max {M : List ApptRow} {R : ApptRow}
    (hsort : List.Pairwise createdLe M) (hR : R ∈ M)
    (hmax : ∀ r ∈ M, r = R ∨ r.createdAt < R.createdAt) :
    M.getLast? = some R := by
  have hne : M ≠ [] := List.ne_nil_of_mem hR
  rw [List.getLast?_eq_getLast M hne]
  have hxmem : M.getLast hne ∈ M := List.getLast_mem hne
  rcases hmax _ hxmem with h | hlt
  · rw [h]
  · exfalso
    have hsplit := List.dropLast_append_getLast hne
    have hsort' : List.Pairwise createdLe (M.dropLast ++ [M.getLast hne]) := by
      rw [hsplit]; exact hsort
    have hR' : R ∈ M.dropLast ++ [M.getLast hne] := by rw [hsplit]; exact hR
    rcases List.mem_append.mp hR' with hRd | hRs
    · have hle : createdLe R (M.getLast hne) :=
        (List.pairwise_append.mp hsort').2.2 R hRd (M.getLast hne) (List.mem_singleton_self _)
      exact absurd hle (not_le.mpr hlt)
    · have heq : M.getLast hne = R := (List.mem_singleton.mp hRs).symm
      rw [heq] at hlt
      exact lt_irrefl _ hlt

/-- Everything in an Excel append result was in the old table or is the
appended row. -/
theorem mem_add_appointment_excel {t : List ApptRow} {a : ApptInput} {c : String} {r : ApptRow}
    (h : r ∈ ExcelManager.add_appointment t a c) : r ∈ t ∨ r = mkApptRow a c := by
  unfold ExcelManager.add_appointment at h
  rcases List.mem_append.mp h with h1 | h2
  · left
    exact (List.perm_insertionSort createdLe t).subset (mem_of_mem_dropDupKeepLast slotKey h1)
  · right
    exact List.mem_singleton.mp h2

/-- Everything in the table after a batch of Excel appends was in the
initial table or is one of the appended rows. -/
theorem mem_addAllExcel {l : List (ApptInput × String)} :
    ∀ {t : List ApptRow} {r : ApptRow}, r ∈ addAllExcel t l →
      r ∈ t ∨ ∃ p ∈ l, r = mkApptRow p.1 p.2 := by
  induction l with
  | nil => intro t r h; exact Or.inl h
  | cons p ps ih =>
    intro t r h
    have h' : r ∈ addAllExcel (ExcelManager.add_appointment t p.1 p.2) ps := h
    rcases ih h' with h1 | ⟨q, hq, hr⟩
    · rcases mem_add_appointment_excel h1 with h2 | h3
      · exact Or.inl h2
      · exact Or.inr ⟨p, List.mem_cons_self p ps, h3⟩
    · exact Or.inr ⟨q, List.mem_cons_of_mem p hq, hr⟩

/-- The last appended row is present after the batch. -/
theorem last_mem_addAllExcel (t : List ApptRow) (l : List (ApptInput × String))
    (a : ApptInput) (c : String) : mkApptRow a c ∈ addAllExcel t (l ++ [(a, c)]) := by
  unfold addAllExcel
  rw [List.foldl_append]
  simp only [List.foldl_cons, List.foldl_nil]
  unfold ExcelManager.add_appointment
  exact List.mem_append_right _ (List.mem_singleton_self _)

/-- Reading a table through the Excel per-user view keeps, for the slot
key of a strictly-newest row `R`, exactly `[R]`. -/
theorem excel_read_filter_slot (T : List ApptRow) (R : ApptRow)
    (hmem : R ∈ T)
    (hmax : ∀ r ∈ T, slotKey r = slotKey R → r = R ∨ r.createdAt < R.createdAt) :
    (ExcelManager.get_appointments_by_user T R.userId).filter
      (fun r => decide (slotKey r = slotKey R)) = [R] := by
  unfold ExcelManager.get_appointments_by_user
  set F := T.filter (fun r => decide (r.userId = R.userId)) with hF
  set S := sortByCreatedAt F with hS
  have hSF : ∀ {r : ApptRow}, r ∈ S → r ∈ F := fun hr =>
    (List.perm_insertionSort createdLe F).subset hr
  have hFU : ∀ {r : ApptRow}, r ∈ F → r.userId = R.userId := by
    intro r hr
    have := (List.mem_filter.mp hr).2
    exact of_decide_eq_true this
  have hkey : ∀ r : ApptRow, r.userId = R.userId →
      (slotKey r = slotKey R ↔ tripleKey r = tripleKey R) := by
    intro r hu
    unfold slotKey tripleKey
    rw [hu]
    constructor
    · intro h
      have h' := (Prod.mk.injEq _ _ _ _).mp h
      exact h'.2
    · intro h
      rw [h]
  -- replace the slot-key filter by the triple-key filter
  have hcongr : (dropDupKeepLast tripleKey S).filter (fun r => decide (slotKey r = slotKey R)) =
      (dropDupKeepLast tripleKey S).filter (fun r => decide (tripleKey r = tripleKey R)) := by
    apply List.filter_congr
    intro x hx
    have hxS : x ∈ S := mem_of_mem_dropDupKeepLast tripleKey hx
    have hxU : x.userId = R.userId := hFU (hSF hxS)
    simp only [decide_eq_decide]
    exact hkey x hxU
  rw [hcongr, dropDupKeepLast_filter_key tripleKey (tripleKey R) S]
  -- the last triple-key element of the sorted filtered list is R
  have hRF : R ∈ F := List.mem_filter.mpr ⟨hmem, by simp⟩
  have hRS : R ∈ S := (List.perm_insertionSort createdLe F).mem_iff.mpr hRF
  have hRfil : R ∈ S.filter (fun b => decide (tripleKey b = tripleKey R)) :=
    List.mem_filter.mpr ⟨hRS, by simp⟩
  have hsort : List.Pairwise createdLe (S.filter (fun b => decide (tripleKey b = tripleKey R))) :=
    List.Pairwise.filter _ (List.sorted_insertionSort createdLe F)
  have hmax' : ∀ r ∈ S.filter (fun b => decide (tripleKey b = tripleKey R)),
      r = R ∨ r.createdAt < R.createdAt := by
    intro r hr
    have hrS := (List.mem_filter.mp hr).1
    have hrT : r ∈ T := (List.mem_filter.mp (hSF hrS)).1
    have hrU : r.userId = R.userId := hFU (hSF hrS)
    have hrTriple : tripleKey r = tripleKey R := of_decide_eq_true (List.mem_filter.mp hr).2
    exact hmax r hrT ((hkey r hrU).mpr hrTriple)
  rw [getLast?_eq_of_sorted_max hsort hRfil hmax']
  rfl

/-- When no row matches the slot, the Sheets append adds at the end. -/
theorem sheets_add_append (a : ApptInput) (c : String) :
    ∀ {t : List ApptRow}, (∀ r ∈ t, slotKey r ≠ inputSlotKey a) →
      GoogleSheetsManager.add_appointment a c t = t ++ [mkApptRow a c] := by
  intro t
  induction t with
  | nil => intro _; rfl
  | cons r rs ih =>
    intro h
    unfold GoogleSheetsManager.add_appointment
    rw [if_neg (h r (List.mem_cons_self r rs))]
    rw [ih (fun x hx => h x (List.mem_cons_of_mem r hx))]
    rfl

/-- When the sole matching row sits at the end, the Sheets append
overwrites it in place. -/
theorem sheets_add_update (a : ApptInput) (c : String) {row : ApptRow}
    (hrow : slotKey row = inputSlotKey a) :
    ∀ {t : List ApptRow}, (∀ r ∈ t, slotKey r ≠ inputSlotKey a) →
      GoogleSheetsManager.add_appointment a c (t ++ [row]) =
        t ++ [{ row with status := "Обновлена", createdAt := c }] := by
  intro t
  induction t with
  | nil =>
    intro _
    show GoogleSheetsManager.add_appointment a c (row :: []) = _
    unfold GoogleSheetsManager.add_appointment
    rw [if_pos hrow]
    rfl
  | cons r rs ih =>
    intro h
    have : GoogleSheetsManager.add_appointment a c ((r :: rs) ++ [row]) =
        GoogleSheetsManager.add_appointment a c (r :: (rs ++ [row])) := rfl
    rw [this]
    unfold GoogleSheetsManager.add_appointment
    rw [if_neg (h r (List.mem_cons_self r rs))]
    rw [ih (fun x hx => h x (List.mem_cons_of_mem r hx))]
    rfl

/-- Structure updates do not touch the slot-key fields. -/
theorem slotKey_update (row : ApptRow) (c : String) :
    slotKey { row with status := "Обновлена", createdAt := c } = slotKey row := rfl

/-- Running a batch of same-slot appends over a table whose only
slot-key row is the final one repeatedly overwrites that row. -/
theorem addAllSheets_runs :
    ∀ (l : List (ApptInput × String)) {t : List ApptRow} {row : ApptRow},
      (∀ r ∈ t, slotKey r ≠ slotKey row) → (∀ p ∈ l, inputSlotKey p.1 = slotKey row) →
      addAllSheets (t ++ [row]) l = t ++ [foldUpdates row l] := by
  intro l
  induction l with
  | nil => intro t row _ _; rfl
  | cons p ps ih =>
    intro t row ht hl
    have hkey : slotKey row = inputSlotKey p.1 := (hl p (List.mem_cons_self p ps)).symm
    have step : addAllSheets (t ++ [row]) (p :: ps) =
        addAllSheets (GoogleSheetsManager.add_appointment p.1 p.2 (t ++ [row])) ps := rfl
    rw [step, sheets_add_update p.1 p.2 hkey (fun r hr => by rw [← hkey]; exact ht r hr)]
    rw [@ih t { row with status := "Обновлена", createdAt := p.2 }
      (by intro r hr; rw [slotKey_update]; exact ht r hr)
      (by intro q hq; rw [slotKey_update]; exact hl q (List.mem_cons_of_mem p hq))]
    rfl

/-- A nonempty update batch ending at `q` leaves status `Обновлена` and
`createdAt = q.2`, everything else as in `row`. -/
theorem foldUpdates_concat (l : List (ApptInput × String)) :
    ∀ (row : ApptRow) (q : ApptInput × String),
      foldUpdates row (l ++ [q]) = { row with status := "Обновлена", createdAt := q.2 } := by
  induction l with
  | nil => intro row q; rfl
  | cons p ps ih =>
    intro row q
    have : foldUpdates row ((p :: ps) ++ [q]) =
        foldUpdates { row with status := "Обновлена", createdAt := p.2 } (ps ++ [q]) := rfl
    rw [this, ih]

/-- Reading a table whose only slot-key row is the appended `R` through
the Sheets per-user view yields exactly `[R]` for that slot key. -/
theorem sheets_read_single {t : List ApptRow} {R : ApptRow} {uid : String}
    (huid : R.userId = uid) (ht : ∀ r ∈ t, slotKey r ≠ slotKey R) :
    (GoogleSheetsManager.get_appointments_by_user (t ++ [R]) uid).filter
      (fun r => decide (slotKey r = slotKey R)) = [R] := by
  unfold GoogleSheetsManager.get_appointments_by_user sortByCreatedAtDesc
  set F := (t ++ [R]).filter (fun r => decide (r.userId = uid)) with hF
  have hperm : List.Perm
      ((List.insertionSort createdGe F).filter (fun r => decide (slotKey r = slotKey R)))
      (F.filter (fun r => decide (slotKey r = slotKey R))) :=
    (List.perm_insertionSort createdGe F).filter _
  have hFval : F.filter (fun r => decide (slotKey r = slotKey R)) = [R] := by
    rw [hF, List.filter_append, List.filter_append]
    have h1 : (t.filter (fun r => decide (r.userId = uid))).filter
        (fun r => decide (slotKey r = slotKey R)) = [] := by
      rw [List.filter_eq_nil_iff]
      intro r hr
      have hrt : r ∈ t := (List.mem_filter.mp hr).1
      simp only [decide_eq_true_iff]
      exact ht r hrt
    have h2 : ([R].filter (fun r => decide (r.userId = uid))).filter
        (fun r => decide (slotKey r = slotKey R)) = [R] := by
      rw [List.filter_cons_of_pos (by simp [huid]), List.filter_nil,
        List.filter_cons_of_pos (by simp), List.filter_nil]
    rw [h1, h2]
    rfl
  rw [hFval] at hperm
  exact List.perm_singleton.mp hperm

/-! Claim C1. -/

/-- C1 (amended).  Appending a batch of records sharing one slot key in
increasing `createdAt` order and then reading per user leaves exactly
one row for the slot key, but the backends disagree on its content.
Excel (given that every pre-existing row for the slot key is older than
the appends): the surviving row is the last-appended record.  Sheets
(given an initially slot-free table): the surviving row keeps the
first record's patient cells, with status `Обновлена` (unless the batch
had length one) and the last append's `createdAt`. -/
theorem c1_dedup_idempotence_amended
    (t : List ApptRow) (l₀ : List (ApptInput × String)) (aN : ApptInput) (cN : String)
    (hshare : ∀ p ∈ l₀, inputSlotKey p.1 = inputSlotKey aN)
    (hinc : ∀ p ∈ l₀, p.2 < cN) :
    ((∀ r ∈ t, slotKey r = inputSlotKey aN → r.createdAt < cN) →
      (ExcelManager.get_appointments_by_user (addAllExcel t (l₀ ++ [(aN, cN)])) aN.userId).filter
        (fun r => decide (slotKey r = inputSlotKey aN)) = [mkApptRow aN cN])
    ∧ ((∀ r ∈ t, slotKey r ≠ inputSlotKey aN) →
      (GoogleSheetsManager.get_appointments_by_user (addAllSheets t (l₀ ++ [(aN, cN)])) aN.userId).filter
        (fun r => decide (slotKey r = inputSlotKey aN)) = [sheetsResultRow l₀ aN cN]) := by
  constructor
  · intro ht
    have hmem : mkApptRow aN cN ∈ addAllExcel t (l₀ ++ [(aN, cN)]) :=
      last_mem_addAllExcel t l₀ aN cN
    have hmax : ∀ r ∈ addAllExcel t (l₀ ++ [(aN, cN)]),
        slotKey r = slotKey (mkApptRow aN cN) →
        r = mkApptRow aN cN ∨ r.createdAt < (mkApptRow aN cN).createdAt := by
      intro r hr hslot
      rcases mem_addAllExcel hr with hrt | ⟨p, hp, hrp⟩
      · exact Or.inr (ht r hrt hslot)
      · rcases List.mem_append.mp hp with hp0 | hpN
        · refine Or.inr ?_
          rw [hrp]
          exact hinc p hp0
        · rw [List.mem_singleton.mp hpN] at hrp
          exact Or.inl hrp
    exact excel_read_filter_slot _ (mkApptRow aN cN) hmem hmax
  · intro ht
    cases l₀ with
    | nil =>
      have hstep : addAllSheets t ([] ++ [(aN, cN)]) =
          GoogleSheetsManager.add_appointment aN cN t := rfl
      have hR : slotKey (mkApptRow aN cN) = inputSlotKey aN := rfl
      rw [hstep, sheets_add_append aN cN ht,
        show sheetsResultRow [] aN cN = mkApptRow aN cN from rfl, ← hR]
      exact sheets_read_single rfl (fun r hr => by rw [hR]; exact ht r hr)
    | cons p l₀' =>
      obtain ⟨a1, c1⟩ := p
      have hkey1 : inputSlotKey a1 = inputSlotKey aN :=
        hshare (a1, c1) (List.mem_cons_self _ _)
      have hstep : addAllSheets t (((a1, c1) :: l₀') ++ [(aN, cN)]) =
          addAllSheets (GoogleSheetsManager.add_appointment a1 c1 t) (l₀' ++ [(aN, cN)]) := rfl
      have hadd1 : GoogleSheetsManager.add_appointment a1 c1 t = t ++ [mkApptRow a1 c1] :=
        sheets_add_append a1 c1 (fun r hr => by rw [hkey1]; exact ht r hr)
      have hslot1 : slotKey (mkApptRow a1 c1) = inputSlotKey aN := hkey1
      have hrun : addAllSheets (t ++ [mkApptRow a1 c1]) (l₀' ++ [(aN, cN)]) =
          t ++ [foldUpdates (mkApptRow a1 c1) (l₀' ++ [(aN, cN)])] := by
        apply addAllSheets_runs
        · intro r hr
          rw [hslot1]
          exact ht r hr
        · intro q hq
          rw [hslot1]
          rcases List.mem_append.mp hq with hq0 | hqN
          · exact hshare q (List.mem_cons_of_mem _ hq0)
          · rw [List.mem_singleton.mp hqN]
      have hfold : foldUpdates (mkApptRow a1 c1) (l₀' ++ [(aN, cN)]) = sheetsFinalRow a1 cN := by
        rw [foldUpdates_concat]
        rfl
      rw [hstep, hadd1, hrun, hfold]
      have huser : (sheetsFinalRow a1 cN).userId = aN.userId := by
        have := congrArg Prod.fst hkey1
        exact this
      have hRkey : slotKey (sheetsFinalRow a1 cN) = inputSlotKey aN := by
        show inputSlotKey a1 = inputSlotKey aN
        exact hkey1
      rw [show sheetsResultRow ((a1, c1) :: l₀') aN cN = sheetsFinalRow a1 cN from rfl]
      rw [← hRkey]
      exact sheets_read_single huser (by intro r hr; rw [hRkey]; exact ht r hr)

/-- C1 counterexample: on the Sheets backend, appending two records of
the same slot key (second with a different patient name) and reading
back does not return the last-appended record — the stored row keeps the
first record's cells with status `Обновлена`. -/
theorem c1_counterexample :
    (GoogleSheetsManager.get_appointments_by_user
        (addAllSheets [] [(exInputA, exCreatedA), (exInputB, exCreatedB)]) "7").filter
      (fun r => decide (slotKey r = inputSlotKey exInputB)) ≠ [mkApptRow exInputB exCreatedB] := by
  decide

/-- C1 witness: the amended theorem applied to the two-record batch on
the empty table, for both backends. -/
theorem c1_witness :
    (ExcelManager.get_appointments_by_user
        (addAllExcel [] ([(exInputA, exCreatedA)] ++ [(exInputB, exCreatedB)])) exInputB.userId).filter
      (fun r => decide (slotKey r = inputSlotKey exInputB)) = [mkApptRow exInputB exCreatedB]
    ∧ (GoogleSheetsManager.get_appointments_by_user
        (addAllSheets [] ([(exInputA, exCreatedA)] ++ [(exInputB, exCreatedB)])) exInputB.userId).filter
      (fun r => decide (slotKey r = inputSlotKey exInputB)) =
        [sheetsResultRow [(exInputA, exCreatedA)] exInputB exCreatedB] := by
  have h := c1_dedup_idempotence_amended [] [(exInputA, exCreatedA)] exInputB exCreatedB
    (by decide)
    (by
      intro p hp
      rw [List.mem_singleton] at hp
      subst hp
      rw [String.lt_iff_toList_lt]
      decide)
  exact ⟨h.1 (by intro r hr; exact absurd hr (List.not_mem_nil r)),
    h.2 (by intro r hr; exact absurd hr (List.not_mem_nil r))⟩

/-! Claim C10. -/

/-- C10 (code bug).  Module `sheets_manager` binds the class under the
name `GoogleSheetsManager`, not `SheetsManager`, so bot startup's
`from sheets_manager import SheetsManager` always raises and the
guarded importer leaves `SheetsManager = None`: whatever
`GOOGLE_SHEETS_ID` holds, the Excel backend is selected. -/
theorem c10_backend_selection :
    (∀ googleSheetsId : Option String, selectStoreBackend googleSheetsId = .excel)
    ∧ importedSheetsManagerOk = false
    ∧ sheetsManagerModuleNames.contains "GoogleSheetsManager" = true := by
  refine ⟨?_, by decide, by decide⟩
  intro gid
  unfold selectStoreBackend
  rw [show importedSheetsManagerOk = false from by decide]
  rfl

/-! Claim C6. -/

/-- C6.  The removed-review notification contains the review's date,
its rating, and the preview; the preview is built from a prefix of the
review text of at most 120 characters — the whole text when it fits,
its 120-character prefix with an ellipsis appended when it does not. -/
theorem c6_review_removed_message (date rating text : String) :
    (∃ u v, (mkReviewRemovedMsg date rating text).data = u ++ date.data ++ v)
    ∧ (∃ u v, (mkReviewRemovedMsg date rating text).data = u ++ rating.data ++ v)
    ∧ (∃ u v, (mkReviewRemovedMsg date rating text).data = u ++ (reviewPreview text).data ++ v)
    ∧ (∃ pre rest : List Char, text.data = pre ++ rest ∧ pre.length ≤ 120 ∧
        ((text.length ≤ 120 ∧ rest = [] ∧ reviewPreview text = text)
          ∨ (text.length > 120 ∧ pre.length = 120 ∧
              reviewPreview text = String.mk pre ++ "…"))) := by
  refine ⟨?_, ?_, ?_, ?_⟩
  · exact ⟨"Ваш отзыв от ".data,
      (" (оценка " ++ rating ++ ") был удалён/скрыт администратором.\nТекст: " ++
        reviewPreview text).data,
      by simp [mkReviewRemovedMsg, String.data_append]⟩
  · exact ⟨("Ваш отзыв от " ++ date ++ " (оценка ").data,
      (") был удалён/скрыт администратором.\nТекст: " ++ reviewPreview text).data,
      by simp [mkReviewRemovedMsg, String.data_append]⟩
  · exact ⟨("Ваш отзыв от " ++ date ++ " (оценка " ++ rating ++
        ") был удалён/скрыт администратором.\nТекст: ").data, [],
      by simp [mkReviewRemovedMsg, String.data_append]⟩
  · by_cases h : text.length > 120
    · refine ⟨text.data.take 120, text.data.drop 120, (List.take_append_drop 120 text.data).symm,
        ?_, Or.inr ⟨h, ?_, ?_⟩⟩
      · rw [List.length_take]
        exact min_le_left _ _
      · rw [List.length_take]
        have hlen : text.length = text.data.length := rfl
        rw [hlen] at h
        omega
      · unfold reviewPreview
        rw [if_pos h]
    · refine ⟨text.data, [], by simp, ?_, Or.inl ⟨by omega, rfl, ?_⟩⟩
      · have hlen : text.length = text.data.length := rfl
        rw [← hlen]
        omega
      · unfold reviewPreview
        rw [if_neg h]

/-! Claim C5. -/

/-- Counting a predicate and its negation partitions a list's length. -/
theorem countP_not_add {α : Type} (p : α → Prop) [DecidablePred p] (l : List α) :
    l.countP (fun a => decide (¬ p a)) + l.countP (fun a => decide (p a)) = l.length := by
  induction l with
  | nil => rfl
  | cons x xs ih =>
    simp only [List.countP_cons, List.length_cons]
    by_cases hx : p x
    · simp [hx] at ih ⊢
      omega
    · simp [hx] at ih ⊢
      omega

/-- With no matching row, the filter keeps everything. -/
theorem filter_not_matches_of_countP_zero {t : List ApptRow} {k : IdentityKey}
    (h : t.countP (fun r => decide (matchesIdentity k r)) = 0) :
    t.filter (fun r => decide (¬ matchesIdentity k r)) = t := by
  rw [List.filter_eq_self]
  intro r hr
  have := List.countP_eq_zero.mp h r hr
  simp only [decide_eq_true_iff] at this ⊢
  exact this

/-- Excel delete with exactly one matching row: removes it, reports
`true`. -/
theorem excel_delete_of_countP_one {t : List ApptRow} {k : IdentityKey}
    (h : t.countP (fun r => decide (matchesIdentity k r)) = 1) :
    ExcelManager.delete_appointment t k =
      (true, t.filter (fun r => decide (¬ matchesIdentity k r))) := by
  have hne : t ≠ [] := by
    intro hnil
    rw [hnil] at h
    simp at h
  have hlen : (t.filter (fun r => decide (¬ matchesIdentity k r))).length + 1 = t.length := by
    rw [← List.countP_eq_length_filter]
    rw [← countP_not_add (matchesIdentity k) t, h]
  unfold ExcelManager.delete_appointment
  rw [if_neg (by simp [List.isEmpty_iff, hne])]
  simp only []
  rw [if_neg (by omega)]

/-- Excel delete with no matching row: no change, reports `false`. -/
theorem excel_delete_of_countP_zero {t : List ApptRow} {k : IdentityKey}
    (h : t.countP (fun r => decide (matchesIdentity k r)) = 0) :
    ExcelManager.delete_appointment t k = (false, t) := by
  unfold ExcelManager.delete_appointment
  by_cases hne : t.isEmpty
  · rw [if_pos hne]
  · rw [if_neg hne]
    simp only []
    rw [if_pos (by rw [filter_not_matches_of_countP_zero h])]

/-- Sheets delete with exactly one matching row: removes it, reports
`true`. -/
theorem sheets_delete_of_countP_one :
    ∀ {t : List ApptRow} {k : IdentityKey},
      t.countP (fun r => decide (matchesIdentity k r)) = 1 →
      GoogleSheetsManager.delete_appointment k t =
        (true, t.filter (fun r => decide (¬ matchesIdentity k r))) := by
  intro t
  induction t with
  | nil => intro k h; simp at h
  | cons r rs ih =>
    intro k h
    by_cases hr : matchesIdentity k r
    · have hrs : rs.countP (fun x => decide (matchesIdentity k x)) = 0 := by
        rw [List.countP_cons_of_pos _ _ (by simp [hr])] at h
        omega
      unfold GoogleSheetsManager.delete_appointment
      rw [if_pos hr]
      rw [List.filter_cons_of_neg (by simp [hr]), filter_not_matches_of_countP_zero hrs]
    · have hrs : rs.countP (fun x => decide (matchesIdentity k x)) = 1 := by
        rw [List.countP_cons_of_neg _ _ (by simp [hr])] at h
        exact h
      unfold GoogleSheetsManager.delete_appointment
      rw [if_neg hr]
      rw [ih hrs, List.filter_cons_of_pos (by simp [hr])]

/-- Sheets delete with no matching row: no change, reports `false`. -/
theorem sheets_delete_of_countP_zero :
    ∀ {t : List ApptRow} {k : IdentityKey},
      t.countP (fun r => decide (matchesIdentity k r)) = 0 →
      GoogleSheetsManager.delete_appointment k t = (false, t) := by
  intro t
  induction t with
  | nil => intro k _; rfl
  | cons r rs ih =>
    intro k h
    have hr : ¬ matchesIdentity k r := by
      have := List.countP_eq_zero.mp h r (List.mem_cons_self r rs)
      simp only [decide_eq_true_iff] at this
      exact this
    have hrs : rs.countP (fun x => decide (matchesIdentity k x)) = 0 := by
      rw [List.countP_cons_of_neg _ _ (by simp [hr])] at h
      exact h
    unfold GoogleSheetsManager.delete_appointment
    rw [if_neg hr, ih hrs]

/-- C5.  With exactly one row matching the full identity key, both
backends' `delete_appointment` remove precisely that row (all other rows
survive, in order) and return `true`; with no matching row both return
`false` and leave the table untouched. -/
theorem c5_delete_by_identity (t : List ApptRow) (k : IdentityKey) :
    (t.countP (fun r => decide (matchesIdentity k r)) = 1 →
      ExcelManager.delete_appointment t k =
        (true, t.filter (fun r => decide (¬ matchesIdentity k r)))
      ∧ GoogleSheetsManager.delete_appointment k t =
        (true, t.filter (fun r => decide (¬ matchesIdentity k r))))
    ∧ (t.countP (fun r => decide (matchesIdentity k r)) = 0 →
      ExcelManager.delete_appointment t k = (false, t)
      ∧ GoogleSheetsManager.delete_appointment k t = (false, t)) := by
  constructor
  · intro h
    exact ⟨excel_delete_of_countP_one h, sheets_delete_of_countP_one h⟩
  · intro h
    exact ⟨excel_delete_of_countP_zero h, sheets_delete_of_countP_zero h⟩

/-- C5 witness: delete of the unique matching row from a two-row table
removes exactly it in both backends; delete with an unmatched key leaves
the table unchanged and reports `false` in both backends. -/
theorem c5_witness :
    (ExcelManager.delete_appointment [exRowBookedByOther, exCachedRow]
        (cancelKey "7" exCachedRow) = (true, [exRowBookedByOther])
      ∧ GoogleSheetsManager.delete_appointment (cancelKey "7" exCachedRow)
        [exRowBookedByOther, exCachedRow] = (true, [exRowBookedByOther]))
    ∧ (ExcelManager.delete_appointment [exRowBookedByOther]
        (cancelKey "7" exCachedRow) = (false, [exRowBookedByOther])
      ∧ GoogleSheetsManager.delete_appointment (cancelKey "7" exCachedRow)
        [exRowBookedByOther] = (false, [exRowBookedByOther])) := by
  constructor
  · have h := (c5_delete_by_identity [exRowBookedByOther, exCachedRow]
      (cancelKey "7" exCachedRow)).1 (by decide)
    refine ⟨?_, ?_⟩
    · rw [h.1]
      decide
    · rw [h.2]
      decide
  · exact (c5_delete_by_identity [exRowBookedByOther] (cancelKey "7" exCachedRow)).2 (by decide)

/-! Claim C2. -/

/-- C2.  For a valid cached index whose row parses: if the appointment
instant is more than 24 h after now (the status hypothesis of the claim
is stated, though the handler never consults the status) and the store
holds exactly one row with the resolved identity key, the cancel action
deletes that row and confirms; if the instant is 24 h or less away, it
is rejected with the eligibility alert and the store is untouched. -/
theorem c2_cancellation_window (cache store : List ApptRow) (uid : String)
    (i : Int) (now : Int) (row : ApptRow) (inst : Int)
    (hi : 1 ≤ i) (hle : i ≤ cache.length)
    (hrow : cache[i.toNat - 1]? = some row)
    (hparse : apptInstantSeconds row.date row.time = some inst) :
    (inst - now > 86400 →
      pyLower row.status ∉ cancelledStatusesListing →
      store.countP (fun r => decide (matchesIdentity (cancelKey uid row) r)) = 1 →
      cancel_appointment_by_index cache store uid i now =
        (.done true, store.filter (fun r => decide (¬ matchesIdentity (cancelKey uid row) r))))
    ∧ (inst - now ≤ 86400 →
      cancel_appointment_by_index cache store uid i now = (.rejectedEligibility, store)) := by
  have hcond : ¬ (i < 1 ∨ i > cache.length) := by
    rintro (h | h)
    · omega
    · omega
  constructor
  · intro h24 _ hcount
    unfold cancel_appointment_by_index
    rw [if_neg hcond]
    simp only [hrow, hparse]
    rw [if_neg (by omega)]
    rw [excel_delete_of_countP_one hcount]
  · intro h24
    unfold cancel_appointment_by_index
    rw [if_neg hcond]
    simp only [hrow, hparse]
    rw [if_pos h24]

/-- C2 witness: user 7's cached appointment at 15.09.2025 10:00, stored
once; 25 h before the instant the cancel deletes it and confirms, at
23 h 59 min before it is rejected and the row survives. -/
theorem c2_witness :
    cancel_appointment_by_index [exCachedRow] [exCachedRow] "7" 1 exNowFar = (.done true, [])
    ∧ cancel_appointment_by_index [exCachedRow] [exCachedRow] "7" 1 exNowNear =
        (.rejectedEligibility, [exCachedRow]) := by
  have hfar := c2_cancellation_window [exCachedRow] [exCachedRow] "7" 1 exNowFar
    exCachedRow exInstant (by decide) (by decide) (by decide) (by decide)
  have hnear := c2_cancellation_window [exCachedRow] [exCachedRow] "7" 1 exNowNear
    exCachedRow exInstant (by decide) (by decide) (by decide) (by decide)
  constructor
  · rw [hfar.1 (by decide) (by decide) (by decide)]
    decide
  · exact hnear.2 (by decide)

/-! Claim C8. -/

/-- C8.  The cancel action resolves the appointment purely against the
cached listing snapshot: an index outside `1..len(cache)` is rejected
with the invalid-index alert and no store (whatever its contents) is
changed; a valid index behaves, for every store, exactly like the action
on the one-element cache holding the resolved row — the store is never
re-fetched to resolve the position. -/
theorem c8_cancel_resolution (cache : List ApptRow) (uid : String) (i : Int) (now : Int) :
    ((i < 1 ∨ i > cache.length) →
      ∀ store, cancel_appointment_by_index cache store uid i now = (.invalidIndex, store))
    ∧ (∀ row, cache[i.toNat - 1]? = some row → ¬ (i < 1 ∨ i > cache.length) →
      ∀ store, cancel_appointment_by_index cache store uid i now =
        cancel_appointment_by_index [row] store uid 1 now) := by
  constructor
  · intro h store
    unfold cancel_appointment_by_index
    rw [if_pos h]
  · intro row hrow hcond store
    unfold cancel_appointment_by_index
    rw [if_neg hcond, if_neg (by simp)]
    simp only [hrow]
    rfl

/-- C8 witness: index 3 against a two-row cache is rejected for an
arbitrary concrete store, and index 2 resolves to the cache's second
row: the action coincides with the singleton-cache action on that row. -/
theorem c8_witness :
    cancel_appointment_by_index [exRowBookedByOther, exCachedRow] [exCachedRow] "7" 3 exNowFar =
      (.invalidIndex, [exCachedRow])
    ∧ cancel_appointment_by_index [exRowBookedByOther, exCachedRow] [exCachedRow] "7" 2 exNowFar =
      cancel_appointment_by_index [exCachedRow] [exCachedRow] "7" 1 exNowFar := by
  constructor
  · exact (c8_cancel_resolution [exRowBookedByOther, exCachedRow] "7" 3 exNowFar).1
      (by decide) [exCachedRow]
  · exact (c8_cancel_resolution [exRowBookedByOther, exCachedRow] "7" 2 exNowFar).2
      exCachedRow (by decide) (by decide) [exCachedRow]

/-! Claims C9 and C7. -/

/-- Looking up a key just written finds the written session. -/
theorem lookupSession_updateSession_self (ss : SessionMap) (uid : String) (s : Session) :
    lookupSession (updateSession ss uid s) uid = some s := by
  simp [lookupSession, updateSession, List.find?]

/-- Looking up a key just deleted finds nothing. -/
theorem lookupSession_removeSession_self (ss : SessionMap) (uid : String) :
    lookupSession (removeSession ss uid) uid = none := by
  unfold lookupSession removeSession
  rw [List.find?_eq_none.mpr]
  · rfl
  · intro x hx
    have hne := (List.mem_filter.mp hx).2
    simp only [decide_eq_true_iff] at hne
    simp [hne]

/-- C9 (amended).  The terminal booking step defends only against a
wholly absent session: with no session it is a no-op.  When the session
exists but one of the required keys (doctor, specialization, date, time,
name) is missing, the step faults (`KeyError`), the store is untouched,
and the session — with the just-written phone — is left behind. -/
theorem c9_missing_field_amended {σ : Type} (add : σ → ApptInput → Bool × σ) (store : σ)
    (ss : SessionMap) (uid text : String) :
    (lookupSession ss uid = none → enter_phone add store ss uid text = (.noop, ss, store))
    ∧ (∀ s, lookupSession ss uid = some s →
        (s.doctor = none ∨ s.specialization = none ∨ s.date = none ∨
          s.time = none ∨ s.name = none) →
        (enter_phone add store ss uid text).1 = .fault
        ∧ (enter_phone add store ss uid text).2.2 = store
        ∧ lookupSession (enter_phone add store ss uid text).2.1 uid =
            some { s with phone := some text }) := by
  constructor
  · intro h
    unfold enter_phone
    rw [h]
  · intro s hs hmiss
    obtain ⟨fd, fsp, fdt, ftm, fnm, fph⟩ := s
    unfold enter_phone
    rw [hs]
    cases fd <;> cases fsp <;> cases fdt <;> cases ftm <;> cases fnm <;>
      first
        | exact ⟨rfl, rfl, lookupSession_updateSession_self ss uid _⟩
        | simp at hmiss

/-- C9 counterexample: a session that exists but lacks `date` makes the
terminal step fault — it is not a no-op — and the session survives. -/
theorem c9_counterexample :
    (enter_phone (fun (u : Unit) (_ : ApptInput) => (true, u)) () exSessionsIncomplete
        "7" "+7900").1 = .fault
    ∧ StepOutcome.fault ≠ StepOutcome.noop
    ∧ lookupSession exSessionsIncomplete "7" ≠ none := by
  refine ⟨rfl, by decide, by decide⟩

/-- C9 witness: the amended theorem at the empty session map (no-op
branch) and at the date-less session (fault branch). -/
theorem c9_witness :
    enter_phone (fun (u : Unit) (_ : ApptInput) => (true, u)) () [] "7" "+7900" =
      (.noop, [], ())
    ∧ (enter_phone (fun (u : Unit) (_ : ApptInput) => (true, u)) () exSessionsIncomplete
        "7" "+7900").1 = .fault := by
  constructor
  · exact (c9_missing_field_amended (fun (u : Unit) (_ : ApptInput) => (true, u)) () [] "7"
      "+7900").1 rfl
  · exact ((c9_missing_field_amended (fun (u : Unit) (_ : ApptInput) => (true, u)) ()
      exSessionsIncomplete "7" "+7900").2 exIncompleteSession rfl
      (Or.inr (Or.inr (Or.inl rfl)))).1

/-- C7 (amended).  When the session holds every required key, the
booking flow's terminal step always deletes the session — whatever
verdict the store returns — and reports that verdict; the review flow's
terminal step always clears the rating slot.  (When the session exists
but is incomplete, the booking step faults and the session survives;
see the counterexample.) -/
theorem c7_terminal_steps_clear_session {σ : Type} (add : σ → ApptInput → Bool × σ)
    (addReview : σ → String → Nat → String → String → Bool × σ)
    (store : σ) (ss : SessionMap) (uid text : String) (s : Session)
    (d : DoctorInfo) (sp dt tm nm : String)
    (hs : lookupSession ss uid = some s) (hdoc : s.doctor = some d)
    (hsp : s.specialization = some sp) (hdt : s.date = some dt)
    (htm : s.time = some tm) (hnm : s.name = some nm) :
    lookupSession (enter_phone add store ss uid text).2.1 uid = none
    ∧ (enter_phone add store ss uid text).1 =
        .completed (add store ⟨dt, tm, nm, text, d.name, sp, uid⟩).1
    ∧ ∀ (rating? : Option Nat) (userName rtext ruid : String),
        (handle_review_text addReview store rating? userName rtext ruid).2.1 = none := by
  obtain ⟨fd, fsp, fdt, ftm, fnm, fph⟩ := s
  simp only at hdoc hsp hdt htm hnm
  subst hdoc hsp hdt htm hnm
  unfold enter_phone
  rw [hs]
  exact ⟨lookupSession_removeSession_self _ uid, rfl, fun _ _ _ _ => rfl⟩

/-- C7 counterexample: a user whose session exists (but lacks `date`)
reaches the end of the terminal step with the session still present —
it is not cleared. -/
theorem c7_counterexample :
    lookupSession exSessionsIncomplete "7" ≠ none
    ∧ lookupSession (enter_phone (fun (u : Unit) (_ : ApptInput) => (true, u)) ()
        exSessionsIncomplete "7" "+7900").2.1 "7" ≠ none := by
  refine ⟨by decide, by decide⟩

/-- C7 witness: with the complete session, the step clears the session
both under a store that accepts the write and under one that rejects
it; the review step clears the rating likewise. -/
theorem c7_witness :
    lookupSession (enter_phone (fun (u : Unit) (_ : ApptInput) => (true, u)) ()
        exSessionsComplete "7" "+7900").2.1 "7" = none
    ∧ lookupSession (enter_phone (fun (u : Unit) (_ : ApptInput) => (false, u)) ()
        exSessionsComplete "7" "+7900").2.1 "7" = none
    ∧ (handle_review_text (fun (u : Unit) _ _ _ _ => (false, u)) () (some 4)
        "Anna" "Отлично" "7").2.1 = none := by
  refine ⟨?_, ?_, ?_⟩
  · exact (c7_terminal_steps_clear_session (fun (u : Unit) (_ : ApptInput) => (true, u))
      (fun (u : Unit) _ _ _ _ => (true, u)) () exSessionsComplete "7" "+7900"
      exCompleteSession exDoctor "Кардиолог" "15.09.2025" "10:00" "Anna"
      rfl rfl rfl rfl rfl rfl).1
  · exact (c7_terminal_steps_clear_session (fun (u : Unit) (_ : ApptInput) => (false, u))
      (fun (u : Unit) _ _ _ _ => (false, u)) () exSessionsComplete "7" "+7900"
      exCompleteSession exDoctor "Кардиолог" "15.09.2025" "10:00" "Anna"
      rfl rfl rfl rfl rfl rfl).1
  · exact ((c7_terminal_steps_clear_session (fun (u : Unit) (_ : ApptInput) => (false, u))
      (fun (u : Unit) _ _ _ _ => (false, u)) () exSessionsComplete "7" "+7900"
      exCompleteSession exDoctor "Кардиолог" "15.09.2025" "10:00" "Anna"
      rfl rfl rfl rfl rfl rfl).2.2 (some 4) "Anna" "Отлично" "7")

/-! Claim C3. -/

/-- Once a key is out of the baseline and never re-enters the active
set, no later tick's appointment notifications mention it. -/
theorem runSync_appt_not_notified {K : ApptKey} :
    ∀ (snaps : List StoreSnapshot) (st : SyncState), K ∉ st.appts →
      (∀ s ∈ snaps, K ∉ build_active_appointment_keys s.1) →
      ∀ n ∈ runSync st snaps, K ∉ n.1 := by
  intro snaps
  induction snaps with
  | nil => intro st _ _ n hn; exact absurd hn (List.not_mem_nil n)
  | cons s rest ih =>
    intro st hst habs n hn
    rcases List.mem_cons.mp hn with h0 | hrest
    · rw [h0]
      intro hmem
      exact hst (Finset.mem_sdiff.mp hmem).1
    · exact ih ⟨build_active_appointment_keys s.1, build_active_review_keys s.2⟩
        (habs s (List.mem_cons_self s rest)) (fun q hq => habs q (List.mem_cons_of_mem s hq))
        n hrest

/-- Review-key analogue of `runSync_appt_not_notified`. -/
theorem runSync_review_not_notified {K : ReviewKey} :
    ∀ (snaps : List StoreSnapshot) (st : SyncState), K ∉ st.reviews →
      (∀ s ∈ snaps, K ∉ build_active_review_keys s.2) →
      ∀ n ∈ runSync st snaps, K ∉ n.2 := by
  intro snaps
  induction snaps with
  | nil => intro st _ _ n hn; exact absurd hn (List.not_mem_nil n)
  | cons s rest ih =>
    intro st hst habs n hn
    rcases List.mem_cons.mp hn with h0 | hrest
    · rw [h0]
      intro hmem
      exact hst (Finset.mem_sdiff.mp hmem).1
    · exact ih ⟨build_active_appointment_keys s.1, build_active_review_keys s.2⟩
        (habs s (List.mem_cons_self s rest)) (fun q hq => habs q (List.mem_cons_of_mem s hq))
        n hrest

/-- C3 (amended).  A baseline key absent from the tick's recomputed
active set is notified exactly once at that tick, and — because the
baseline is replaced by the current snapshot whether or not the send
succeeded — it is never notified at a later tick as long as it does not
re-enter the active set; both for appointment and for review keys. -/
theorem c3_reconciliation_amended (st : SyncState) (s0 : StoreSnapshot)
    (rest : List StoreSnapshot) (K : ApptKey) (KR : ReviewKey)
    (hK : K ∈ st.appts) (habs : ∀ s ∈ s0 :: rest, K ∉ build_active_appointment_keys s.1)
    (hKR : KR ∈ st.reviews) (habsR : ∀ s ∈ s0 :: rest, KR ∉ build_active_review_keys s.2) :
    runSync st (s0 :: rest) = (syncTick st s0).1 :: runSync (syncTick st s0).2 rest
    ∧ K ∈ (syncTick st s0).1.1 ∧ (syncTick st s0).1.1.val.count K = 1
    ∧ (∀ n ∈ runSync (syncTick st s0).2 rest, K ∉ n.1)
    ∧ KR ∈ (syncTick st s0).1.2 ∧ (syncTick st s0).1.2.val.count KR = 1
    ∧ (∀ n ∈ runSync (syncTick st s0).2 rest, KR ∉ n.2) := by
  have hmemA : K ∈ (syncTick st s0).1.1 :=
    Finset.mem_sdiff.mpr ⟨hK, habs s0 (List.mem_cons_self s0 rest)⟩
  have hmemR : KR ∈ (syncTick st s0).1.2 :=
    Finset.mem_sdiff.mpr ⟨hKR, habsR s0 (List.mem_cons_self s0 rest)⟩
  refine ⟨rfl, hmemA, ?_, ?_, hmemR, ?_, ?_⟩
  · exact Multiset.count_eq_one_of_mem ((syncTick st s0).1.1).nodup hmemA
  · exact runSync_appt_not_notified rest (syncTick st s0).2
      (habs s0 (List.mem_cons_self s0 rest))
      (fun q hq => habs q (List.mem_cons_of_mem s0 hq))
  · exact Multiset.count_eq_one_of_mem ((syncTick st s0).1.2).nodup hmemR
  · exact runSync_review_not_notified rest (syncTick st s0).2
      (habsR s0 (List.mem_cons_self s0 rest))
      (fun q hq => habsR q (List.mem_cons_of_mem s0 hq))

/-- C3 counterexample: a key whose row is deleted, restored by an
external edit, and deleted again is notified at tick 0 and again at the
later tick 2 — notifications for `K` do occur at later ticks. -/
theorem c3_counterexample :
    apptKeyOfRow exRowBookedByOther ∈
      ((runSync (initSyncState ([exRowBookedByOther], []))
          [([], []), ([exRowBookedByOther], []), ([], [])]).get ⟨0, by decide⟩).1
    ∧ apptKeyOfRow exRowBookedByOther ∈
      ((runSync (initSyncState ([exRowBookedByOther], []))
          [([], []), ([exRowBookedByOther], []), ([], [])]).get ⟨2, by decide⟩).1 := by
  decide

/-- C3 witness: a baseline holding one appointment row and one review
row, both gone from the next snapshot and never returning. -/
theorem c3_witness :
    runSync (initSyncState ([exRowBookedByOther], [exReviewRow])) [([], [])] =
      (syncTick (initSyncState ([exRowBookedByOther], [exReviewRow])) ([], [])).1 ::
        runSync (syncTick (initSyncState ([exRowBookedByOther], [exReviewRow])) ([], [])).2 []
    ∧ apptKeyOfRow exRowBookedByOther ∈
        (syncTick (initSyncState ([exRowBookedByOther], [exReviewRow])) ([], [])).1.1
    ∧ (syncTick (initSyncState ([exRowBookedByOther], [exReviewRow]))
        ([], [])).1.1.val.count (apptKeyOfRow exRowBookedByOther) = 1
    ∧ (∀ n ∈ runSync (syncTick (initSyncState ([exRowBookedByOther], [exReviewRow]))
        ([], [])).2 [], apptKeyOfRow exRowBookedByOther ∉ n.1)
    ∧ reviewKeyOfRow exReviewRow ∈
        (syncTick (initSyncState ([exRowBookedByOther], [exReviewRow])) ([], [])).1.2
    ∧ (syncTick (initSyncState ([exRowBookedByOther], [exReviewRow]))
        ([], [])).1.2.val.count (reviewKeyOfRow exReviewRow) = 1
    ∧ (∀ n ∈ runSync (syncTick (initSyncState ([exRowBookedByOther], [exReviewRow]))
        ([], [])).2 [], reviewKeyOfRow exReviewRow ∉ n.2) := by
  exact c3_reconciliation_amended (initSyncState ([exRowBookedByOther], [exReviewRow]))
    ([], []) [] (apptKeyOfRow exRowBookedByOther) (reviewKeyOfRow exReviewRow)
    (by decide) (by decide) (by decide) (by decide)

/-! Claim C4. -/

/-- C4 (amended).  A time is booked for `(doctor, date)` iff, among the
rows carrying the triple `(date, time, doctor)` — regardless of user —
the one with the latest `createdAt` is non-cancelled: the write-time
dedup of `get_booked_times` is keyed on `(date, time, doctor)`, not on
the full slot key.  The offered slots are exactly `AVAILABLE_TIMES`
minus the booked set. -/
theorem c4_booked_times_amended (t : List ApptRow) (doctorName date tm : String) :
    (tm ∈ ExcelManager.get_booked_times t doctorName date ↔
      ∃ r, ((sortByCreatedAt t).filter
          (fun x => decide (tripleKey x = (date, tm, doctorName)))).getLast? = some r ∧
        pyLower r.status ∉ cancelledStatusesBooked)
    ∧ (∀ booked : Finset String,
        tm ∈ show_available_times_slots booked ↔ tm ∈ AVAILABLE_TIMES ∧ tm ∉ booked) := by
  constructor
  · unfold ExcelManager.get_booked_times
    rw [List.mem_toFinset, List.mem_map]
    constructor
    · rintro ⟨r, hr, htm⟩
      have hdd := (List.mem_filter.mp hr).1
      have hmask := of_decide_eq_true (List.mem_filter.mp hr).2
      obtain ⟨hdoc, hdate, hstatus⟩ := hmask
      have htriple : tripleKey r = (date, tm, doctorName) := by
        unfold tripleKey
        rw [hdoc, hdate, htm]
      have hmem : r ∈ (dropDupKeepLast tripleKey (sortByCreatedAt t)).filter
          (fun x => decide (tripleKey x = (date, tm, doctorName))) :=
        List.mem_filter.mpr ⟨hdd, by simp [htriple]⟩
      rw [dropDupKeepLast_filter_key] at hmem
      have hlast : ((sortByCreatedAt t).filter
          (fun x => decide (tripleKey x = (date, tm, doctorName)))).getLast? = some r :=
        Option.mem_toList.mp hmem
      exact ⟨r, hlast, hstatus⟩
    · rintro ⟨r, hlast, hstatus⟩
      have hmem : r ∈ (dropDupKeepLast tripleKey (sortByCreatedAt t)).filter
          (fun x => decide (tripleKey x = (date, tm, doctorName))) := by
        rw [dropDupKeepLast_filter_key, hlast]
        exact List.mem_singleton_self r
      have hdd := (List.mem_filter.mp hmem).1
      have htriple := of_decide_eq_true (List.mem_filter.mp hmem).2
      have hdate : r.date = date := congrArg Prod.fst htriple
      have htime : r.time = tm := congrArg (fun p => p.2.1) htriple
      have hdoc : r.doctorName = doctorName := congrArg (fun p => p.2.2) htriple
      exact ⟨r, List.mem_filter.mpr ⟨hdd, by simp [hdoc, hdate, hstatus]⟩, htime⟩
  · intro booked
    unfold show_available_times_slots
    rw [List.mem_filter]
    simp

/-- C4 counterexample: user 1 holds a live booking for
`(15.09.2025, 10:00, Dr)` while user 2's later booking for the same
triple is cancelled; the code's `(date, time, doctor)` dedup keeps only
the cancelled row, so `get_booked_times` misses `10:00`, unlike the
spec-worded slot-key dedup. -/
theorem c4_counterexample :
    ExcelManager.get_booked_times [exRowBookedByOther, exRowCancelledLater] "Dr" "15.09.2025" ≠
      specFindBookedTimes [exRowBookedByOther, exRowCancelledLater] "Dr" "15.09.2025" := by
  decide
